import Mathlib

/-!
MusicPlayer.Turn: the bootstrap around pion/turn.

A shallow embedding of `src/main.go`: `getPublicIP`, `getPort` and `main`
(flag defaults, validation of the required flags, the two listeners, the
credential map built from `-users`, the `AuthHandler` callback and the
configuration handed to `turn.NewServer`).

Go strings and byte slices are lists of bytes.  The library functions the
program calls are written out after the Go standard library and pion/turn:
`regexp` (leftmost-first backtracking for the one pattern main compiles),
`strings.Count`, `fmt.Sprintf` with an empty argument list, `strconv.Atoi`
and `strconv.Itoa` for a 64-bit `int`, and `turn.GenerateAuthKey`
(MD5 of `username:realm:password`).  Network, environment and command line
are inputs of the model, gathered in `World`.
-/

set_option autoImplicit false

namespace MusicPlayerTurn

/-! ## Strings -/

/-- A Go `string` or `[]byte`: a sequence of bytes. -/
abbrev Bytes := List UInt8

/-- The bytes of a string literal, UTF-8 encoded as the Go compiler stores it. -/
def str (s : String) : Bytes := s.data.flatMap String.utf8EncodeChar

/-- One continuation byte of a UTF-8 sequence, `0x80..0xBF`. -/
def isCont (b : UInt8) : Bool := 0x80 ≤ b && b ≤ 0xBF

/-- Length in bytes of the valid UTF-8 sequence `s` starts with, `0` when it
starts with none (`utf8.DecodeRuneInString` then yields `RuneError` of width 1).
The accepted ranges are those of Go's `unicode/utf8`: no overlong forms, no
surrogates, nothing above U+10FFFF. -/
def utf8Len : Bytes → Nat
  | [] => 0
  | b0 :: t =>
    if b0 < 0x80 then 1
    else match t with
      | b1 :: t1 =>
        if 0xC2 ≤ b0 && b0 ≤ 0xDF then (if isCont b1 then 2 else 0)
        else match t1 with
          | b2 :: t2 =>
            if 0xE0 ≤ b0 && b0 ≤ 0xEF then
              let lo : UInt8 := if b0 = 0xE0 then 0xA0 else 0x80
              let hi : UInt8 := if b0 = 0xED then 0x9F else 0xBF
              if lo ≤ b1 && b1 ≤ hi && isCont b2 then 3 else 0
            else match t2 with
              | b3 :: _ =>
                if 0xF0 ≤ b0 && b0 ≤ 0xF4 then
                  let lo : UInt8 := if b0 = 0xF0 then 0x90 else 0x80
                  let hi : UInt8 := if b0 = 0xF4 then 0x8F else 0xBF
                  if lo ≤ b1 && b1 ≤ hi && isCont b2 && isCont b3 then 4 else 0
                else 0
              | [] => 0
          | [] => 0
      | [] => 0

/-- Width of the rune at the head of a non-empty string, as
`utf8.DecodeRuneInString` reports it: an invalid byte is one rune of width 1. -/
def runeWidth (s : Bytes) : Nat := if utf8Len s = 0 then 1 else utf8Len s

/-- The encoding `writeRune` gives the rune decoded at the head of `s`: the
sequence itself when valid, U+FFFD (`EF BF BD`) otherwise. -/
def runeBytes (s : Bytes) : Bytes :=
  if utf8Len s = 0 then [0xEF, 0xBF, 0xBD] else s.take (utf8Len s)

/-- Loop of `utf8.RuneCountInString`. -/
def runeCountLoop : Nat → Bytes → Nat
  | 0, _ => 0
  | _, [] => 0
  | n + 1, b :: t => 1 + runeCountLoop n ((b :: t).drop (runeWidth (b :: t)))

/-- Go's `utf8.RuneCountInString`. -/
def RuneCountInString (s : Bytes) : Nat := runeCountLoop s.length s

/-- Whether `sub` is a prefix of `s` (Go's `strings.HasPrefix`). -/
def startsWith : Bytes → Bytes → Bool
  | _, [] => true
  | [], _ :: _ => false
  | c :: s, d :: sub => c == d && startsWith s sub

/-- Loop of `strings.Count` for a non-empty `sub`: find the next occurrence,
count it, continue behind it. -/
def countLoop (sub : Bytes) : Nat → Bytes → Nat
  | 0, _ => 0
  | _, [] => 0
  | n + 1, c :: t =>
    if startsWith (c :: t) sub then 1 + countLoop sub n ((c :: t).drop sub.length)
    else countLoop sub n t

/-- Go's `strings.Count`: the number of non-overlapping instances of `substr`
in `s`; for an empty `substr`, one more than the number of runes of `s`. -/
def Count (s substr : Bytes) : Nat :=
  if substr.length = 0 then RuneCountInString s + 1
  else countLoop substr s.length s

/-! ## fmt.Sprintf without arguments -/

/-- The flag characters of a format verb: `#`, `0`, `+`, `-` and blank. -/
def isFlag (c : UInt8) : Bool := c == 35 || c == 48 || c == 43 || c == 45 || c == 32

/-- An ASCII decimal digit. -/
def isDigit (c : UInt8) : Bool := 48 ≤ c && c ≤ 57

/-- Loop of fmt's `parsenum` over the slice `format[start:end]`: the number,
whether one was read, and what is left of the slice.  A number above 10^6
(`tooLarge`) gives up and reports the end of the slice. -/
def parsenumLoop : Bytes → Nat → Bool → Nat × Bool × Bytes
  | [], num, isnum => (num, isnum, [])
  | c :: t, num, isnum =>
    if isDigit c then
      if num > 1000000 then (0, false, [])
      else parsenumLoop t (num * 10 + (c - 48).toNat) true
    else (num, isnum, c :: t)

/-- Go's `fmt.parsenum` on the slice `format[start:end]`. -/
def parsenum (s : Bytes) : Nat × Bool × Bytes := parsenumLoop s 0 false

/-- Go's `fmt.parseArgNumber` on a format that starts with `[`: the width of
the bracketed index and whether it is well formed (`[n]` with `n` a number).
The index itself is not returned: with no arguments it is never in range. -/
def parseArgNumber (format : Bytes) : Nat × Bool :=
  if format.length < 3 then (1, false)
  else
    let inner := (format.drop 1).takeWhile (· != 93)
    if inner.length + 1 < format.length then
      match parsenum inner with
      | (_, true, []) => (inner.length + 2, true)
      | _ => (inner.length + 2, false)
    else (1, false)

/-- Go's `(*pp).argNumber` for an empty argument list, on the rest of the
format: the rest behind an index, whether a well-formed index was found, and
`goodArgNum`.  An index is never within an empty argument list, so every `[`
clears `goodArgNum`. -/
def argNumber (s : Bytes) (goodArgNum : Bool) : Bytes × Bool × Bool :=
  match s with
  | 91 :: _ =>
    let r := parseArgNumber s
    (s.drop r.1, r.2, false)
  | _ => (s, false, goodArgNum)

/-- The width of a verb ("Do we have width?" in `doPrintf`), from the rest of
the format, `afterIndex` and `goodArgNum`: what is written, and the three
after it.  A `*` finds no argument to take the width from and writes
`%!(BADWIDTH)`; a number right behind an index clears `goodArgNum`. -/
def verbWidth (s : Bytes) (afterIndex goodArgNum : Bool) : Bytes × Bytes × Bool × Bool :=
  match s with
  | 42 :: t => (str "%!(BADWIDTH)", t, false, goodArgNum)
  | _ =>
    ([], (parsenum s).2.2, afterIndex, goodArgNum && !(afterIndex && (parsenum s).2.1))

/-- The precision of a verb ("Do we have precision?" in `doPrintf`): a `.`,
then an index, then `*` (which finds no argument and writes `%!(BADPREC)`)
or a number. -/
def verbPrecision (s : Bytes) (afterIndex goodArgNum : Bool) : Bytes × Bytes × Bool × Bool :=
  match s with
  | 46 :: t =>
    match (argNumber t (goodArgNum && !afterIndex)).1 with
    | 42 :: t2 => (str "%!(BADPREC)", t2, false, (argNumber t (goodArgNum && !afterIndex)).2.2)
    | t1 =>
      ([], (parsenum t1).2.2, (argNumber t (goodArgNum && !afterIndex)).2.1,
        (argNumber t (goodArgNum && !afterIndex)).2.2)
  | _ => ([], s, afterIndex, goodArgNum)

/-- What `doPrintf` writes for a verb once its flags, index, width and
precision are read, with no argument left: `%` for the verb `%`, else
`%!verb(BADINDEX)` after a bad index and `%!verb(MISSING)` otherwise; `s` is
the format from the verb on. -/
def verbText (s : Bytes) (goodArgNum : Bool) : Bytes :=
  if s.head? = some 37 then [37]
  else if !goodArgNum then str "%!" ++ runeBytes s ++ str "(BADINDEX)"
  else str "%!" ++ runeBytes s ++ str "(MISSING)"

/-- One verb of `doPrintf` with no arguments, from the format behind its `%`:
what is written for it, and the format behind the verb, `none` when the
format ends before the verb character (`%!(NOVERB)` is written and the loop
ends). -/
def printVerb (s0 : Bytes) : Bytes × Option Bytes :=
  let s1 := s0.dropWhile isFlag
  let r1 := argNumber s1 true
  let r2 := verbWidth r1.1 r1.2.1 r1.2.2
  let r3 := verbPrecision r2.2.1 r2.2.2.1 r2.2.2.2
  let r4 := if r3.2.2.1 then (r3.2.1, r3.2.2.2)
    else ((argNumber r3.2.1 r3.2.2.2).1, (argNumber r3.2.1 r3.2.2.2).2.2)
  match r4.1 with
  | [] => (r2.1 ++ r3.1 ++ str "%!(NOVERB)", none)
  | v :: t =>
    (r2.1 ++ r3.1 ++ verbText (v :: t) r4.2, some ((v :: t).drop (runeWidth (v :: t))))

/-- Loop of Go's `(*pp).doPrintf` with no arguments: the text up to the next
`%` is copied, then one verb is handled. -/
def doPrintfLoop : Nat → Bytes → Bytes
  | 0, _ => []
  | n + 1, format =>
    match format.dropWhile (· != 37) with
    | [] => format.takeWhile (· != 37)
    | _ :: s0 =>
      match printVerb s0 with
      | (out, none) => format.takeWhile (· != 37) ++ out
      | (out, some rest) => format.takeWhile (· != 37) ++ out ++ doPrintfLoop n rest

/-- Go's `fmt.Sprintf(format)` called with the format alone. -/
def Sprintf (format : Bytes) : Bytes := doPrintfLoop (format.length + 1) format

/-! ## strconv -/

deriving instance DecidableEq for Except

/-- The two errors of `strconv`. -/
inductive NumError where
  | ErrSyntax
  | ErrRange
  deriving DecidableEq, Repr

/-- Digit loop of `strconv.Atoi`'s fast path: `none` on a byte that is no digit. -/
def atoiDigits : Bytes → Nat → Option Nat
  | [], n => some n
  | ch :: t, n => if isDigit ch then atoiDigits t (n * 10 + (ch - 48).toNat) else none

/-- Digit loop of `strconv.ParseUint(s, 10, 64)`. -/
def parseUintLoop : Bytes → Nat → Except NumError Nat
  | [], n => .ok n
  | c :: t, n =>
    if isDigit c then
      if n ≥ (2 ^ 64 - 1) / 10 + 1 then .error .ErrRange
      else if n * 10 + (c - 48).toNat > 2 ^ 64 - 1 then .error .ErrRange
      else parseUintLoop t (n * 10 + (c - 48).toNat)
    else .error .ErrSyntax

/-- Go's `strconv.ParseUint(s, 10, 0)` on a 64-bit platform. -/
def ParseUint (s : Bytes) : Except NumError Nat :=
  if s = [] then .error .ErrSyntax else parseUintLoop s 0

/-- Go's `strconv.ParseInt(s, 10, 0)` on a 64-bit platform. -/
def ParseInt (s : Bytes) : Except NumError Int :=
  if s = [] then .error .ErrSyntax
  else
    let neg := s.head? = some 45
    let digits := if s.head? = some 43 ∨ neg then s.tail else s
    match ParseUint digits with
    | .error .ErrSyntax => .error .ErrSyntax
    | r =>
      let un := match r with
        | .ok n => n
        | .error _ => 2 ^ 64 - 1
      if ¬ neg ∧ un ≥ 2 ^ 63 then .error .ErrRange
      else if neg ∧ un > 2 ^ 63 then .error .ErrRange
      else .ok (if neg then - (un : Int) else (un : Int))

/-- Go's `strconv.Atoi` with a 64-bit `int`: a fast path for fewer than 19
bytes, `ParseInt` for the rest. -/
def Atoi (s : Bytes) : Except NumError Int :=
  if 0 < s.length ∧ s.length < 19 then
    let signed := s.head? = some 45 ∨ s.head? = some 43
    let digits := if signed then s.tail else s
    if signed ∧ digits.length < 1 then .error .ErrSyntax
    else
      match atoiDigits digits 0 with
      | none => .error .ErrSyntax
      | some n => .ok (if s.head? = some 45 then - (n : Int) else (n : Int))
  else ParseInt s

/-- Decimal digits of a natural number, most significant first. -/
def formatDigits : Nat → Nat → Bytes → Bytes
  | 0, _, acc => acc
  | fuel + 1, n, acc =>
    if n / 10 = 0 then UInt8.ofNat (48 + n % 10) :: acc
    else formatDigits fuel (n / 10) (UInt8.ofNat (48 + n % 10) :: acc)

/-- Go's `strconv.Itoa`: the decimal text of an `int`. -/
def Itoa (i : Int) : Bytes :=
  if i < 0 then 45 :: formatDigits (i.natAbs + 1) i.natAbs []
  else formatDigits (i.natAbs + 1) i.natAbs []

/-! ## regexp

Go's `regexp` returns, among the matches that start leftmost, "the one that a
backtracking search would have found first" (package documentation).  `run`
is that backtracking search: it lists the ways a pattern can match at the head
of the input, in the order the search tries them. -/

/-- The pattern constructs `(\w+)=(\w+)` is made of. -/
inductive Regex where
  | cls (p : UInt8 → Bool)
  | lit (c : UInt8)
  | plus (r : Regex)
  | cat (r s : Regex)
  | cap (i : Nat) (r : Regex)

/-- A state of the search: the input not yet consumed and the text of each
capture group (empty while the group has not matched). -/
structure MState where
  rest : Bytes
  caps : Nat → Bytes

/-- Record the text of capture group `i`. -/
def setCap (caps : Nat → Bytes) (i : Nat) (v : Bytes) : Nat → Bytes :=
  fun j => if j = i then v else caps j

/-- Greedy repetition, one or more times: after each round of `step` another
round is tried first, stopping there second. -/
def plusLoop (step : MState → List MState) : Nat → MState → List MState
  | 0, _ => []
  | n + 1, st =>
    (step st).flatMap fun st1 =>
      (if st1.rest.length < st.rest.length then plusLoop step n st1 else []) ++ [st1]

/-- All ways the pattern matches at the head of the input, first choice first. -/
def Regex.run : Regex → MState → List MState
  | .cls p, st =>
    match st.rest with
    | c :: t => if p c then [{ st with rest := t }] else []
    | [] => []
  | .lit b, st =>
    match st.rest with
    | c :: t => if c = b then [{ st with rest := t }] else []
    | [] => []
  | .plus r, st => plusLoop r.run (st.rest.length + 1) st
  | .cat r s, st => (r.run st).flatMap s.run
  | .cap i r, st =>
    (r.run st).map fun st1 =>
      { st1 with
        caps := setCap st1.caps i (st.rest.take (st.rest.length - st1.rest.length)) }

/-- The class `\w` of Go's regexp: the ASCII word characters `[0-9A-Za-z_]`. -/
def isWord (c : UInt8) : Bool :=
  (48 ≤ c && c ≤ 57) || (65 ≤ c && c ≤ 90) || c == 95 || (97 ≤ c && c ≤ 122)

/-- The pattern main compiles, `(\w+)=(\w+)`. -/
def usersRegex : Regex :=
  .cat (.cap 1 (.plus (.cls isWord))) (.cat (.lit 61) (.cap 2 (.plus (.cls isWord))))

/-- The match that starts at the head of `s`, if any: the texts of groups
`0..numCap` (group 0 is the whole match) and the input behind the match. -/
def matchAt (re : Regex) (numCap : Nat) (s : Bytes) : Option (List Bytes × Bytes) :=
  match Regex.run (.cap 0 re) ⟨s, fun _ => []⟩ with
  | st :: _ => some ((List.range (numCap + 1)).map st.caps, st.rest)
  | [] => none

/-- The leftmost match in `s`.  The search moves on byte by byte; a match of
`(\w+)=(\w+)` starts with an ASCII byte, which is always the start of a rune. -/
def firstMatch (re : Regex) (numCap : Nat) : Bytes → Option (List Bytes × Bytes)
  | [] => matchAt re numCap []
  | c :: t => (matchAt re numCap (c :: t)).orElse fun _ => firstMatch re numCap t

/-- Loop of Go's `(*Regexp).allMatches`: successive matches, each search
starting where the last match ended.  A match of `(\w+)=(\w+)` holds at least
three bytes (`usersRegex_consumes`), so the loop's step past an empty match
is never taken; here an empty match would end the loop. -/
def allMatchesLoop (re : Regex) (numCap : Nat) : Nat → Bytes → List (List Bytes)
  | 0, _ => []
  | n + 1, s =>
    match firstMatch re numCap s with
    | none => []
    | some (m, rest) =>
      m :: (if rest.length < s.length then allMatchesLoop re numCap n rest else [])

/-- Go's `(*Regexp).FindAllStringSubmatch(s, -1)`. -/
def FindAllStringSubmatch (re : Regex) (numCap : Nat) (s : Bytes) : List (List Bytes) :=
  allMatchesLoop re numCap (s.length + 1) s

/-! ## turn.GenerateAuthKey

pion/turn derives the long-term key as the MD5 digest (RFC 1321) of
`username:realm:password`.  Words are 32 bits, kept in `Nat` modulo `2^32`. -/

/-- Per-round left-rotation amounts of MD5. -/
def md5Shift : List Nat :=
  [7, 12, 17, 22, 7, 12, 17, 22, 7, 12, 17, 22, 7, 12, 17, 22,
   5, 9, 14, 20, 5, 9, 14, 20, 5, 9, 14, 20, 5, 9, 14, 20,
   4, 11, 16, 23, 4, 11, 16, 23, 4, 11, 16, 23, 4, 11, 16, 23,
   6, 10, 15, 21, 6, 10, 15, 21, 6, 10, 15, 21, 6, 10, 15, 21]

/-- The sine table of MD5: `floor (2^32 * |sin (i + 1)|)`. -/
def md5K : List Nat :=
  [0xd76aa478, 0xe8c7b756, 0x242070db, 0xc1bdceee, 0xf57c0faf, 0x4787c62a,
   0xa8304613, 0xfd469501, 0x698098d8, 0x8b44f7af, 0xffff5bb1, 0x895cd7be,
   0x6b901122, 0xfd987193, 0xa679438e, 0x49b40821, 0xf61e2562, 0xc040b340,
   0x265e5a51, 0xe9b6c7aa, 0xd62f105d, 0x02441453, 0xd8a1e681, 0xe7d3fbc8,
   0x21e1cde6, 0xc33707d6, 0xf4d50d87, 0x455a14ed, 0xa9e3e905, 0xfcefa3f8,
   0x676f02d9, 0x8d2a4c8a, 0xfffa3942, 0x8771f681, 0x6d9d6122, 0xfde5380c,
   0xa4beea44, 0x4bdecfa9, 0xf6bb4b60, 0xbebfbc70, 0x289b7ec6, 0xeaa127fa,
   0xd4ef3085, 0x04881d05, 0xd9d4d039, 0xe6db99e5, 0x1fa27cf8, 0xc4ac5665,
   0xf4292244, 0x432aff97, 0xab9423a7, 0xfc93a039, 0x655b59c3, 0x8f0ccc92,
   0xffeff47d, 0x85845dd1, 0x6fa87e4f, 0xfe2ce6e0, 0xa3014314, 0x4e0811a1,
   0xf7537e82, 0xbd3af235, 0x2ad7d2bb, 0xeb86d391]

/-- Rotate a 32-bit word left by `c` bits. -/
def rotl32 (x c : Nat) : Nat := ((x <<< c) ||| (x >>> (32 - c))) % 2 ^ 32

/-- Bitwise complement of a 32-bit word. -/
def not32 (x : Nat) : Nat := x ^^^ 0xffffffff

/-- The four chaining words of MD5. -/
structure Md5State where
  a : Nat
  b : Nat
  c : Nat
  d : Nat

/-- Step `i` (of 64) of the MD5 compression function on the message words `m`. -/
def md5Round (m : List Nat) (st : Md5State) (i : Nat) : Md5State :=
  let f :=
    if i < 16 then (st.b &&& st.c) ||| (not32 st.b &&& st.d)
    else if i < 32 then (st.d &&& st.b) ||| (not32 st.d &&& st.c)
    else if i < 48 then st.b ^^^ st.c ^^^ st.d
    else st.c ^^^ (st.b ||| not32 st.d)
  let g :=
    if i < 16 then i
    else if i < 32 then (5 * i + 1) % 16
    else if i < 48 then (3 * i + 5) % 16
    else (7 * i) % 16
  let f2 := (f + st.a + md5K.getD i 0 + m.getD g 0) % 2 ^ 32
  ⟨st.d, (st.b + rotl32 f2 (md5Shift.getD i 0)) % 2 ^ 32, st.b, st.c⟩

/-- A little-endian 32-bit word from the first four bytes of `bs`. -/
def leWord (bs : List Nat) : Nat :=
  bs.getD 0 0 + 2 ^ 8 * bs.getD 1 0 + 2 ^ 16 * bs.getD 2 0 + 2 ^ 24 * bs.getD 3 0

/-- The sixteen message words of a 64-byte block. -/
def md5Words (block : List Nat) : List Nat :=
  (List.range 16).map fun j => leWord (block.drop (4 * j))

/-- The MD5 compression function on one 64-byte block. -/
def md5Block (st : Md5State) (block : List Nat) : Md5State :=
  let r := (List.range 64).foldl (md5Round (md5Words block)) st
  ⟨(st.a + r.a) % 2 ^ 32, (st.b + r.b) % 2 ^ 32, (st.c + r.c) % 2 ^ 32, (st.d + r.d) % 2 ^ 32⟩

/-- The low `n` bytes of `x`, least significant first. -/
def leBytes (n : Nat) (x : Nat) : List Nat :=
  (List.range n).map fun j => (x >>> (8 * j)) % 256

/-- MD5 padding: a `0x80` byte, zeros up to 56 modulo 64, the bit length in 8 bytes. -/
def md5Pad (msg : List Nat) : List Nat :=
  msg ++ [0x80] ++ List.replicate ((119 - msg.length % 64) % 64) 0
    ++ leBytes 8 ((8 * msg.length) % 2 ^ 64)

/-- Compress `k` successive 64-byte blocks. -/
def md5Blocks : Nat → Md5State → List Nat → Md5State
  | 0, st, _ => st
  | k + 1, st, data => md5Blocks k (md5Block st (data.take 64)) (data.drop 64)

/-- The 16-byte MD5 digest of a message. -/
def md5Sum (msg : Bytes) : Bytes :=
  let data := md5Pad (msg.map UInt8.toNat)
  let r := md5Blocks (data.length / 64) ⟨0x67452301, 0xefcdab89, 0x98badcfe, 0x10325476⟩ data
  (leBytes 4 r.a ++ leBytes 4 r.b ++ leBytes 4 r.c ++ leBytes 4 r.d).map UInt8.ofNat

/-- The key derivation of pion/turn, `turn.GenerateAuthKey`: MD5 of
`strings.Join([]string{username, realm, password}, ":")`. -/
def GenerateAuthKey (username realm password : Bytes) : Bytes :=
  md5Sum (username ++ str ":" ++ realm ++ str ":" ++ password)

/-! ## The credential map and the AuthHandler -/

/-- A Go `map[string][]byte`: each key has a value or is absent. -/
abbrev UsersMap := Bytes → Option Bytes

/-- The empty map, `map[string][]byte{}`. -/
def emptyMap : UsersMap := fun _ => none

/-- The assignment `m[k] = v`. -/
def mapSet (m : UsersMap) (k v : Bytes) : UsersMap :=
  fun k1 => if k1 = k then some v else m k1

/-- The loop of main over the matches of `(\w+)=(\w+)` in `-users`:
`usersMap[kv[1]] = turn.GenerateAuthKey(kv[1], *realm, kv[2])`. -/
def buildUsersMap (realm users : Bytes) : UsersMap :=
  (FindAllStringSubmatch usersRegex 2 users).foldl
    (fun m kv => mapSet m (kv.getD 1 []) (GenerateAuthKey (kv.getD 1 []) realm (kv.getD 2 [])))
    emptyMap

/-- The callback main installs as `AuthHandler`, with the map it closes over
passed in and handed back: `(key, true)` for a known user, `(nil, false)`
otherwise (`none` is Go's `nil`). -/
def AuthHandler (username _realm _srcAddr : Bytes) (usersMap : UsersMap) :
    (Option Bytes × Bool) × UsersMap :=
  match usersMap username with
  | some key => ((some key, true), usersMap)
  | none => ((none, false), usersMap)

/-! ## The program and its surroundings -/

/-- What `http.Get` followed by `ioutil.ReadAll` of the body comes to. -/
inductive HttpResult where
  | getFailed
  | readFailed
  | body (ipBytes : Bytes)

/-- The flags given on the command line, as `flag.Parse` reads them: `none`
for a flag that is not given (it keeps its default). -/
structure Args where
  publicIP : Option Bytes
  port : Option Int
  users : Option Bytes
  realm : Option Bytes

/-- A static relay address generator, `turn.RelayAddressGeneratorStatic`;
`RelayAddress` is a `net.IP`, `none` for Go's `nil`. -/
structure RelayAddressGeneratorStatic where
  RelayAddress : Option Bytes
  Address : Bytes

/-- An open socket, known by the network and the address it was bound with. -/
structure Socket where
  network : Bytes
  address : Bytes
  deriving DecidableEq

/-- An entry of `turn.ServerConfig.PacketConnConfigs`. -/
structure PacketConnConfig where
  PacketConn : Socket
  RelayAddressGenerator : RelayAddressGeneratorStatic

/-- An entry of `turn.ServerConfig.ListenerConfigs`. -/
structure ListenerConfig where
  Listener : Socket
  RelayAddressGenerator : RelayAddressGeneratorStatic

/-- The fields of `turn.ServerConfig` main sets.  `AuthHandler` is the
callback with the credential map it closes over. -/
structure ServerConfig where
  Realm : Bytes
  AuthHandler : Bytes → Bytes → Bytes → Option Bytes × Bool
  PacketConnConfigs : List PacketConnConfig
  ListenerConfigs : List ListenerConfig

/-- Everything outside the program that main depends on. -/
structure World where
  /-- Result of fetching a URL. -/
  httpGet : Bytes → HttpResult
  /-- The environment: `none` for a variable that is not set. -/
  environ : Bytes → Option Bytes
  /-- The command line; `none` when `flag.Parse` ends the process itself
  (a malformed flag, `-help`). -/
  args : Option Args
  /-- Whether `net.ListenPacket(network, address)` succeeds. -/
  listenPacket : Bytes → Bytes → Bool
  /-- Whether `net.Listen(network, address)` succeeds. -/
  listen : Bytes → Bytes → Bool
  /-- Go's `net.ParseIP`. -/
  parseIP : Bytes → Option Bytes
  /-- The error of `turn.NewServer`, `none` when it succeeds. -/
  newServer : ServerConfig → Option Bytes
  /-- The error of the server's `Close`, `none` when it succeeds. -/
  close : Option Bytes

/-- What main does to its surroundings, in order. -/
inductive Event where
  | httpGet (url : Bytes)
  | getenv (name : Bytes)
  | flagParse
  | logPrintln (msg : Bytes)
  | listenPacket (network address : Bytes)
  | listen (network address : Bytes)
  | newServer (cfg : ServerConfig)
  | awaitSignal
  | close

/-- How the process ends: `log.Panicf` (with its format string), `log.Panic`
of an error, `log.Fatalf` (with the message logged before `os.Exit(1)`), an
exit inside `flag.Parse`, or the return of main. -/
inductive Outcome where
  | panicf (format : Bytes)
  | panic (err : Bytes)
  | fatal (msg : Bytes)
  | flagExit
  | returned
  deriving DecidableEq

/-- Whether an event creates a UDP or TCP listener. -/
def Event.isListener : Event → Bool
  | .listenPacket _ _ => true
  | .listen _ _ => true
  | _ => false

/-- The configurations handed to `turn.NewServer`, in order. -/
def newServerConfigs : List Event → List ServerConfig
  | [] => []
  | .newServer cfg :: es => cfg :: newServerConfigs es
  | _ :: es => newServerConfigs es

/-- Whether an event is the call of `flag.Parse`. -/
def Event.isFlagParse : Event → Bool
  | .flagParse => true
  | _ => false

/-- The service main asks for the public address. -/
def ipifyURL : Bytes := str "https://api.ipify.org?format=text"

/-- The function `getPublicIP`: the fetched body, run through `fmt.Sprintf` as a
format when it holds `%s` exactly once; a panic when the lookup fails. -/
def getPublicIP (httpGet : Bytes → HttpResult) : Except Outcome Bytes :=
  match httpGet ipifyURL with
  | .getFailed => .error (.panicf (str "Failed to get public IP"))
  | .readFailed => .error (.panicf (str "Failed to parse public IP from body"))
  | .body ipBytes =>
    -- `fmt.Sprintf("%s", ipBytes)` is the text of the bytes
    let ip := ipBytes
    let publicIP := if Count ip (str "%s") = 1 then Sprintf ip else ip
    .ok publicIP

/-- Go's `os.Getenv`: the empty string for a variable that is not set. -/
def Getenv (environ : Bytes → Option Bytes) (name : Bytes) : Bytes :=
  (environ name).getD []

/-- The function `getPort`: `PORT` from the environment, `3478` when it is empty,
read with `strconv.Atoi`; a panic when that fails. -/
def getPort (environ : Bytes → Option Bytes) : Except Outcome Int :=
  let portString := Getenv environ (str "PORT")
  let portString := if portString = [] then str "3478" else portString
  match Atoi portString with
  | .error _ => .error (.panicf (str "Failed to get heroku Port"))
  | .ok port => .ok port

/-- The values of the four flags after `flag.Parse`. -/
structure FlagValues where
  publicIP : Bytes
  port : Int
  users : Bytes
  realm : Bytes

/-- The default of the `-users` flag. -/
def defaultUsers : Bytes := str "musicplayer=z!ErcBpHfgV%QA5Bz*a6"

/-- The address both listeners are bound to, `"0.0.0.0:"+strconv.Itoa(*port)`. -/
def listenAddress (port : Int) : Bytes := str "0.0.0.0:" ++ Itoa port

/-- The relay address generator main gives both endpoints. -/
def relayGenerator (w : World) (v : FlagValues) : RelayAddressGeneratorStatic :=
  { RelayAddress := w.parseIP v.publicIP, Address := str "0.0.0.0" }

/-- The `turn.ServerConfig` main builds from the flags and the two sockets. -/
def serverConfig (w : World) (v : FlagValues) (udpListener tcpListener : Socket) :
    ServerConfig :=
  { Realm := v.realm
    AuthHandler := fun username realm srcAddr =>
      (AuthHandler username realm srcAddr (buildUsersMap v.realm v.users)).1
    PacketConnConfigs :=
      [{ PacketConn := udpListener, RelayAddressGenerator := relayGenerator w v }]
    ListenerConfigs :=
      [{ Listener := tcpListener, RelayAddressGenerator := relayGenerator w v }] }

/-- The body of main after `flag.Parse`: validation of the required flags,
the two listeners, the server, the wait for SIGINT or SIGTERM, and `Close`. -/
def serve (w : World) (v : FlagValues) : List Event × Outcome :=
  if v.publicIP.length = 0 then ([], .fatal (Sprintf (str "'public-ip' is required")))
  else if v.users.length = 0 then ([], .fatal (Sprintf (str "'users' is required")))
  else
    let e1 := [Event.logPrintln
      (str "TURN Server is running at " ++ v.publicIP ++ str ":" ++ Itoa v.port)]
    let e2 := e1 ++ [.listenPacket (str "udp4") (listenAddress v.port)]
    if ¬ w.listenPacket (str "udp4") (listenAddress v.port) then
      (e2, .panicf (str "Failed to create TURN server listener: %s"))
    else
      let udpListener : Socket := ⟨str "udp4", listenAddress v.port⟩
      let e3 := e2 ++ [.listen (str "tcp4") (listenAddress v.port)]
      if ¬ w.listen (str "tcp4") (listenAddress v.port) then
        (e3, .panicf (str "Failed to create TURN server listener: %s"))
      else
        let tcpListener : Socket := ⟨str "tcp4", listenAddress v.port⟩
        let cfg := serverConfig w v udpListener tcpListener
        let e4 := e3 ++ [.newServer cfg]
        match w.newServer cfg with
        | some err => (e4, .panic err)
        | none =>
          match w.close with
          | some err => (e4 ++ [.awaitSignal, .close], .panic err)
          | none => (e4 ++ [.awaitSignal, .close], .returned)

/-- The flag values `flag.Parse` leaves: what the command line gives, else
the default each flag was defined with. -/
def flagValues (a : Args) (defaultIP : Bytes) (defaultPort : Int) : FlagValues :=
  { publicIP := a.publicIP.getD defaultIP
    port := a.port.getD defaultPort
    users := a.users.getD defaultUsers
    realm := a.realm.getD (str "pion.ly") }

/-- The program: the events it causes, in order, and how it ends.  The
defaults of `-public-ip` and `-port` are the results of `getPublicIP()` and
`getPort()`, evaluated while the flags are defined, before `flag.Parse`. -/
def main (w : World) : List Event × Outcome :=
  match getPublicIP w.httpGet with
  | .error p => ([.httpGet ipifyURL], p)
  | .ok defaultIP =>
    match getPort w.environ with
    | .error p => ([.httpGet ipifyURL, .getenv (str "PORT")], p)
    | .ok defaultPort =>
      match w.args with
      | none => ([.httpGet ipifyURL, .getenv (str "PORT"), .flagParse], .flagExit)
      | some a =>
        let r := serve w (flagValues a defaultIP defaultPort)
        ([.httpGet ipifyURL, .getenv (str "PORT"), .flagParse] ++ r.1, r.2)

/-! ## Definitions the statements use -/

/-- The states a greedy run of word characters over `x` leaves, longest run first. -/
def wordRuns (x rest : Bytes) (caps : Nat → Bytes) : List MState :=
  match x with
  | [] => []
  | _ :: t => wordRuns t rest caps ++ [⟨t ++ rest, caps⟩]

/-- What stands behind a complete word: nothing, or a byte that is no word character. -/
def wordEnd (rest : Bytes) : Prop := ∀ c ∈ rest.head?, isWord c = false

/-- The text `u=p` of one pair of the `-users` flag. -/
def pairText (up : Bytes × Bytes) : Bytes := up.1 ++ str "=" ++ up.2

/-- The documented form of `-users`: the pairs `u=p`, separated by commas. -/
def usersText (pairs : List (Bytes × Bytes)) : Bytes :=
  (str ",").intercalate (pairs.map pairText)

/-- A non-empty string of word characters `[0-9A-Za-z_]`. -/
def IsWordString (s : Bytes) : Prop := s ≠ [] ∧ ∀ c ∈ s, isWord c = true

/-- The submatches `FindAllStringSubmatch` reports for a pair: `u=p`, `u`, `p`. -/
def pairMatch (up : Bytes × Bytes) : List Bytes := [pairText up, up.1, up.2]

/-- The least number of bytes a match of the pattern holds. -/
def Regex.minLen : Regex → Nat
  | .cls _ => 1
  | .lit _ => 1
  | .plus r => r.minLen
  | .cat r s => r.minLen + s.minLen
  | .cap _ r => r.minLen

/-- The places of `s` at which `sub` occurs, counted with overlaps. -/
def occurrences (s sub : Bytes) : Nat := s.tails.countP (fun t => startsWith t sub)

/-- A world for the examples: the lookup answers `203.0.113.7`, `PORT` is as
given, every socket can be bound and the server starts and stops without error. -/
def exampleWorld (http : HttpResult) (port : Option Bytes) (args : Args) : World :=
  { httpGet := fun _ => http
    environ := fun name => if name = str "PORT" then port else none
    args := some args
    listenPacket := fun _ _ => true
    listen := fun _ _ => true
    parseIP := fun s => some s
    newServer := fun _ => none
    close := none }

/-! ## The pattern `(\w+)=(\w+)` on the documented form of `-users` -/

theorem cls_run_wordEnd (rest : Bytes) (caps : Nat → Bytes) (h : wordEnd rest) :
    (Regex.cls isWord).run ⟨rest, caps⟩ = [] := by
  cases rest with
  | nil => rfl
  | cons c t =>
    have hc : isWord c = false := h c (by simp)
    simp [Regex.run, hc]

theorem plusLoop_word (x : Bytes) :
    ∀ (n : Nat) (rest : Bytes) (caps : Nat → Bytes), (∀ c ∈ x, isWord c = true) →
      wordEnd rest → x.length + 1 ≤ n →
      plusLoop (Regex.cls isWord).run n ⟨x ++ rest, caps⟩ = wordRuns x rest caps := by
  induction x with
  | nil =>
    intro n rest caps _ hr hn
    obtain ⟨k, rfl⟩ : ∃ k, n = k + 1 := ⟨n - 1, by simp at hn; omega⟩
    simp [plusLoop, wordRuns, cls_run_wordEnd rest caps hr]
  | cons c t ih =>
    intro n rest caps hx hr hn
    obtain ⟨k, rfl⟩ : ∃ k, n = k + 1 := ⟨n - 1, by simp at hn; omega⟩
    have hc : isWord c = true := hx c (by simp)
    have ht : ∀ d ∈ t, isWord d = true := fun d hd => hx d (by simp [hd])
    have hk : t.length + 1 ≤ k := by simp at hn; omega
    have hstep : (Regex.cls isWord).run ⟨c :: (t ++ rest), caps⟩ = [⟨t ++ rest, caps⟩] := by
      simp [Regex.run, hc]
    rw [List.cons_append, plusLoop, hstep]
    simp [wordRuns, ih k rest caps ht hr hk]

theorem wordRuns_head (x rest : Bytes) (caps : Nat → Bytes) (hx : x ≠ []) :
    ∃ l, wordRuns x rest caps = ⟨rest, caps⟩ :: l := by
  induction x with
  | nil => exact absurd rfl hx
  | cons c t ih =>
    cases t with
    | nil => exact ⟨[], by simp [wordRuns]⟩
    | cons d t2 =>
      obtain ⟨l, hl⟩ := ih (by simp)
      exact ⟨l ++ [⟨(d :: t2) ++ rest, caps⟩], by rw [wordRuns, hl]; simp⟩

theorem take_consumed (a b : Bytes) : List.take ((a ++ b).length - b.length) (a ++ b) = a := by
  have h : (a ++ b).length - b.length = a.length := by simp
  rw [h, List.take_left']
  rfl

theorem cap_word_run (i : Nat) (x rest : Bytes) (caps : Nat → Bytes) (hx : x ≠ [])
    (hw : ∀ c ∈ x, isWord c = true) (hr : wordEnd rest) :
    ∃ l, (Regex.cap i (.plus (.cls isWord))).run ⟨x ++ rest, caps⟩
      = ⟨rest, setCap caps i x⟩ :: l := by
  obtain ⟨l, hl⟩ := wordRuns_head x rest caps hx
  have hrun : (Regex.plus (.cls isWord)).run ⟨x ++ rest, caps⟩ = wordRuns x rest caps := by
    rw [Regex.run]
    exact plusLoop_word x _ rest caps hw hr (by simp)
  rw [Regex.run, hrun, hl, List.map_cons]
  refine ⟨l.map fun st1 =>
    ⟨st1.rest, setCap st1.caps i ((x ++ rest).take ((x ++ rest).length - st1.rest.length))⟩, ?_⟩
  simp only [List.cons.injEq, and_true]
  rw [take_consumed]

theorem wordEnd_eq (t : Bytes) : wordEnd (61 :: t) := by
  intro c hc
  simp at hc
  subst hc
  decide

theorem usersRegex_run (u p rest : Bytes) (caps : Nat → Bytes) (hu : u ≠ []) (hp : p ≠ [])
    (huw : ∀ c ∈ u, isWord c = true) (hpw : ∀ c ∈ p, isWord c = true) (hr : wordEnd rest) :
    ∃ l, usersRegex.run ⟨u ++ 61 :: (p ++ rest), caps⟩
      = ⟨rest, setCap (setCap caps 1 u) 2 p⟩ :: l := by
  obtain ⟨l1, h1⟩ := cap_word_run 1 u (61 :: (p ++ rest)) caps hu huw (wordEnd_eq _)
  obtain ⟨l2, h2⟩ := cap_word_run 2 p rest (setCap caps 1 u) hp hpw hr
  have hlit : (Regex.lit 61).run ⟨61 :: (p ++ rest), setCap caps 1 u⟩
      = [⟨p ++ rest, setCap caps 1 u⟩] := by
    simp [Regex.run]
  refine ⟨l2 ++ l1.flatMap (Regex.cat (.lit 61) (.cap 2 (.plus (.cls isWord)))).run, ?_⟩
  show (Regex.cat (.cap 1 (.plus (.cls isWord)))
    (.cat (.lit 61) (.cap 2 (.plus (.cls isWord))))).run _ = _
  rw [Regex.run, h1, List.flatMap_cons]
  conv => lhs; arg 1; rw [Regex.run, hlit]
  simp [h2]

theorem matchAt_users (u p rest : Bytes) (hu : u ≠ []) (hp : p ≠ [])
    (huw : ∀ c ∈ u, isWord c = true) (hpw : ∀ c ∈ p, isWord c = true) (hr : wordEnd rest) :
    matchAt usersRegex 2 (u ++ 61 :: (p ++ rest)) = some ([u ++ 61 :: p, u, p], rest) := by
  obtain ⟨l, hl⟩ := usersRegex_run u p rest (fun _ => []) hu hp huw hpw hr
  have ht := take_consumed (u ++ 61 :: p) rest
  simp only [List.append_assoc, List.cons_append] at ht
  unfold matchAt
  rw [Regex.run, hl]
  simp only [List.map_cons, ht]
  simp [setCap, List.range_succ]

theorem str_eq : str "=" = [61] := by decide

theorem str_comma : str "," = [44] := by decide

theorem usersText_single (a : Bytes × Bytes) : usersText [a] = pairText a := by
  simp [usersText, List.intercalate]

theorem usersText_cons (a b : Bytes × Bytes) (l : List (Bytes × Bytes)) :
    usersText (a :: b :: l) = pairText a ++ 44 :: usersText (b :: l) := by
  simp [usersText, List.intercalate, str_comma]

theorem matchAt_wordEnd (s : Bytes) (h : wordEnd s) : matchAt usersRegex 2 s = none := by
  have hrun : (Regex.plus (.cls isWord)).run ⟨s, fun _ => []⟩ = [] := by
    rw [Regex.run]
    have := plusLoop_word [] (s.length + 1) s (fun _ => []) (by simp) h (by simp)
    simpa [wordRuns] using this
  have h1 : usersRegex.run ⟨s, fun _ => []⟩ = [] := by
    show (Regex.cat (.cap 1 (.plus (.cls isWord)))
      (.cat (.lit 61) (.cap 2 (.plus (.cls isWord))))).run _ = _
    rw [Regex.run, Regex.run, hrun]
    rfl
  unfold matchAt
  rw [Regex.run, h1]
  rfl

theorem wordEnd_nil : wordEnd [] := by
  intro c hc
  simp at hc

theorem wordEnd_comma (t : Bytes) : wordEnd (44 :: t) := by
  intro c hc
  simp at hc
  subst hc
  decide

theorem firstMatch_users (pre u p rest : Bytes) (hpre : pre = [] ∨ pre = [44])
    (hu : IsWordString u) (hp : IsWordString p) (hr : wordEnd rest) :
    firstMatch usersRegex 2 (pre ++ (u ++ 61 :: (p ++ rest)))
      = some ([u ++ 61 :: p, u, p], rest) := by
  have hm := matchAt_users u p rest hu.1 hp.1 hu.2 hp.2 hr
  have hplain : firstMatch usersRegex 2 (u ++ 61 :: (p ++ rest))
      = some ([u ++ 61 :: p, u, p], rest) := by
    obtain ⟨c, t, hct⟩ : ∃ c t, u = c :: t := by
      cases u with
      | nil => exact absurd rfl hu.1
      | cons c t => exact ⟨c, t, rfl⟩
    rw [hct] at hm ⊢
    rw [List.cons_append] at hm ⊢
    rw [firstMatch, hm]
    rfl
  rcases hpre with h | h
  · rw [h, List.nil_append, hplain]
  · rw [h, List.singleton_append, firstMatch, matchAt_wordEnd _ (wordEnd_comma _), hplain]
    rfl

theorem allMatchesLoop_step (n : Nat) (pre u p rest : Bytes) (hpre : pre = [] ∨ pre = [44])
    (hu : IsWordString u) (hp : IsWordString p) (hr : wordEnd rest) :
    allMatchesLoop usersRegex 2 (n + 1) (pre ++ (u ++ 61 :: (p ++ rest)))
      = [u ++ 61 :: p, u, p] :: allMatchesLoop usersRegex 2 n rest := by
  rw [allMatchesLoop, firstMatch_users pre u p rest hpre hu hp hr]
  have hlen : rest.length < (pre ++ (u ++ 61 :: (p ++ rest))).length := by
    simp
    omega
  dsimp only
  rw [if_pos hlen]

theorem allMatchesLoop_nil (n : Nat) : allMatchesLoop usersRegex 2 n [] = [] := by
  cases n with
  | zero => rfl
  | succ k =>
    rw [allMatchesLoop, firstMatch, matchAt_wordEnd [] wordEnd_nil]

theorem allMatchesLoop_users (pairs : List (Bytes × Bytes)) :
    ∀ (n : Nat) (pre : Bytes), pairs ≠ [] → pairs.length ≤ n → (pre = [] ∨ pre = [44]) →
      (∀ up ∈ pairs, IsWordString up.1 ∧ IsWordString up.2) →
      allMatchesLoop usersRegex 2 n (pre ++ usersText pairs) = pairs.map pairMatch := by
  induction pairs with
  | nil => intro n pre h; exact absurd rfl h
  | cons a l ih =>
    intro n pre _ hn hpre hv
    obtain ⟨k, rfl⟩ : ∃ k, n = k + 1 := ⟨n - 1, by simp at hn; omega⟩
    have ha := hv a (by simp)
    cases l with
    | nil =>
      have h := allMatchesLoop_step k pre a.1 a.2 [] hpre ha.1 ha.2 wordEnd_nil
      simp only [List.append_nil] at h
      rw [usersText_single, pairText, str_eq, List.append_assoc, List.singleton_append, h,
        allMatchesLoop_nil]
      simp [pairMatch, pairText, str_eq]
    | cons b l2 =>
      have h := allMatchesLoop_step k pre a.1 a.2 (44 :: usersText (b :: l2)) hpre ha.1 ha.2
        (wordEnd_comma _)
      have hih := ih k [44] (by simp) (by simp at hn ⊢; omega) (Or.inr rfl)
        (fun up hup => hv up (by simp [hup]))
      rw [List.singleton_append] at hih
      rw [usersText_cons, pairText, str_eq]
      simp only [List.append_assoc, List.singleton_append, List.cons_append,
        List.nil_append] at h ⊢
      rw [h, hih]
      simp [pairMatch, pairText, str_eq]

theorem pairs_length_le (pairs : List (Bytes × Bytes)) :
    pairs.length ≤ (usersText pairs).length + 1 := by
  induction pairs with
  | nil => simp
  | cons a l ih =>
    cases l with
    | nil => simp
    | cons b l2 =>
      rw [usersText_cons]
      simp at ih ⊢
      omega

theorem findAll_users (pairs : List (Bytes × Bytes)) (hne : pairs ≠ [])
    (hv : ∀ up ∈ pairs, IsWordString up.1 ∧ IsWordString up.2) :
    FindAllStringSubmatch usersRegex 2 (usersText pairs) = pairs.map pairMatch := by
  have h := allMatchesLoop_users pairs ((usersText pairs).length + 1) [] hne
    (pairs_length_le pairs) (Or.inl rfl) hv
  simpa [FindAllStringSubmatch] using h

/-! ## Matches consume input; the fuel of the loops is enough -/

theorem plusLoop_consumes (step : MState → List MState) (k : Nat)
    (hstep : ∀ st st1, st1 ∈ step st → st1.rest.length + k ≤ st.rest.length) :
    ∀ (n : Nat) (st st1 : MState), st1 ∈ plusLoop step n st →
      st1.rest.length + k ≤ st.rest.length := by
  intro n
  induction n with
  | zero => intro st st1 h; simp [plusLoop] at h
  | succ n ih =>
    intro st st1 h
    rw [plusLoop, List.mem_flatMap] at h
    obtain ⟨st2, h2, h3⟩ := h
    have h4 := hstep st st2 h2
    rw [List.mem_append] at h3
    rcases h3 with h3 | h3
    · split at h3
      · have := ih st2 st1 h3
        omega
      · simp at h3
    · simp at h3
      subst h3
      exact h4

theorem run_consumes (re : Regex) :
    ∀ (st st1 : MState), st1 ∈ re.run st → st1.rest.length + re.minLen ≤ st.rest.length := by
  induction re with
  | cls p =>
    intro st st1 h
    rw [Regex.run] at h
    split at h
    · next c t hc =>
      split at h
      · simp at h; subst h; simp [Regex.minLen, hc]
      · simp at h
    · simp at h
  | lit b =>
    intro st st1 h
    rw [Regex.run] at h
    split at h
    · next c t hc =>
      split at h
      · simp at h; subst h; simp [Regex.minLen, hc]
      · simp at h
    · simp at h
  | plus r ih =>
    intro st st1 h
    rw [Regex.run] at h
    exact plusLoop_consumes r.run r.minLen ih _ st st1 h
  | cat r s ihr ihs =>
    intro st st1 h
    rw [Regex.run, List.mem_flatMap] at h
    obtain ⟨st2, h2, h3⟩ := h
    have := ihr st st2 h2
    have := ihs st2 st1 h3
    simp only [Regex.minLen]
    omega
  | cap i r ih =>
    intro st st1 h
    rw [Regex.run, List.mem_map] at h
    obtain ⟨st2, h2, rfl⟩ := h
    exact ih st st2 h2

theorem matchAt_consumes (re : Regex) (numCap : Nat) (s : Bytes) (m : List Bytes) (rest : Bytes)
    (h : matchAt re numCap s = some (m, rest)) : rest.length + re.minLen ≤ s.length := by
  unfold matchAt at h
  split at h
  · next st l hst =>
    have hmem : st ∈ Regex.run (.cap 0 re) ⟨s, fun _ => []⟩ := by rw [hst]; simp
    have := run_consumes (.cap 0 re) _ st hmem
    simp at h
    rw [← h.2]
    simpa [Regex.minLen] using this
  · simp at h

/-- Every match of `(\w+)=(\w+)` holds at least three bytes: the loop of
`allMatchesLoop` never meets an empty match. -/
theorem usersRegex_consumes (s : Bytes) (m : List Bytes) (rest : Bytes)
    (h : firstMatch usersRegex 2 s = some (m, rest)) : rest.length + 3 ≤ s.length := by
  induction s with
  | nil =>
    rw [firstMatch] at h
    exact matchAt_consumes usersRegex 2 [] m rest h
  | cons c t ih =>
    rw [firstMatch] at h
    cases hm : matchAt usersRegex 2 (c :: t) with
    | some r =>
      rw [hm] at h
      simp [Option.orElse] at h
      subst h
      exact matchAt_consumes usersRegex 2 (c :: t) m rest hm
    | none =>
      rw [hm] at h
      simp [Option.orElse] at h
      have := ih h
      simp
      omega

theorem parsenumLoop_length (s : Bytes) :
    ∀ (num : Nat) (isnum : Bool), (parsenumLoop s num isnum).2.2.length ≤ s.length := by
  induction s with
  | nil => intro num isnum; simp [parsenumLoop]
  | cons c t ih =>
    intro num isnum
    rw [parsenumLoop]
    split
    · split
      · simp
      · exact Nat.le_succ_of_le (ih _ _)
    · simp

theorem argNumber_length (s : Bytes) (g : Bool) : (argNumber s g).1.length ≤ s.length := by
  unfold argNumber
  split
  · simp
  · simp

theorem verbWidth_length (s : Bytes) (ai g : Bool) :
    (verbWidth s ai g).2.1.length ≤ s.length := by
  unfold verbWidth
  split
  · simp
  · exact parsenumLoop_length s 0 false

theorem verbPrecision_length (s : Bytes) (ai g : Bool) :
    (verbPrecision s ai g).2.1.length ≤ s.length := by
  unfold verbPrecision
  split
  · next t =>
    have h1 := argNumber_length t (g && !ai)
    split
    · next t2 heq =>
      rw [heq] at h1
      simp at h1 ⊢
      omega
    · have h2 := parsenumLoop_length (argNumber t (g && !ai)).1 0 false
      simp [parsenum] at h2 ⊢
      omega
  · simp

theorem printVerb_length (s0 out rest : Bytes) (h : printVerb s0 = (out, some rest)) :
    rest.length < s0.length + 1 := by
  unfold printVerb at h
  simp only at h
  split at h
  · simp at h
  · next v t heq =>
    simp only [Prod.mk.injEq, Option.some.injEq] at h
    have hw : 1 ≤ runeWidth (v :: t) := by
      unfold runeWidth
      split <;> omega
    have h0 : (s0.dropWhile isFlag).length ≤ s0.length :=
      (List.dropWhile_sublist _).length_le
    have h1 := argNumber_length (s0.dropWhile isFlag) true
    have h2 := verbWidth_length (argNumber (s0.dropWhile isFlag) true).1
      (argNumber (s0.dropWhile isFlag) true).2.1 (argNumber (s0.dropWhile isFlag) true).2.2
    generalize verbWidth (argNumber (s0.dropWhile isFlag) true).1
      (argNumber (s0.dropWhile isFlag) true).2.1
      (argNumber (s0.dropWhile isFlag) true).2.2 = r2 at h2 heq h
    have h3 := verbPrecision_length r2.2.1 r2.2.2.1 r2.2.2.2
    generalize verbPrecision r2.2.1 r2.2.2.1 r2.2.2.2 = r3 at h3 heq h
    have h4 := argNumber_length r3.2.1 r3.2.2.2
    have h5 : (v :: t).length ≤ r3.2.1.length := by
      rw [← heq]
      split
      · exact Nat.le_refl _
      · exact h4
    rw [← h.2]
    simp at h5 ⊢
    omega

theorem doPrintfLoop_fuel (n : Nat) :
    ∀ (m : Nat) (format : Bytes), format.length < n → format.length < m →
      doPrintfLoop n format = doPrintfLoop m format := by
  induction n with
  | zero => intro m format h; omega
  | succ n ih =>
    intro m format hn hm
    obtain ⟨k, rfl⟩ : ∃ k, m = k + 1 := ⟨m - 1, by omega⟩
    rw [doPrintfLoop, doPrintfLoop]
    split
    · rfl
    · next c s0 heq =>
      have hs0 : s0.length + 1 ≤ format.length := by
        have := (List.dropWhile_sublist (fun x => x != 37) (l := format)).length_le
        rw [heq] at this
        simpa using this
      cases hp : printVerb s0 with
      | mk out r =>
        cases r with
        | none => rfl
        | some rest =>
          have := printVerb_length s0 out rest hp
          simp only
          rw [ih k rest (by omega) (by omega)]

/-- The fuel `Sprintf` gives the loop of `doPrintf` is enough: more changes nothing. -/
theorem Sprintf_fuel (format : Bytes) (n : Nat) (h : format.length < n) :
    doPrintfLoop n format = Sprintf format :=
  doPrintfLoop_fuel n _ format h (Nat.lt_succ_self _)

theorem countLoop_occurrences (n : Nat) :
    ∀ s : Bytes, s.length ≤ n → countLoop [37, 115] n s = occurrences s [37, 115] := by
  induction n with
  | zero =>
    intro s h
    have : s = [] := List.length_eq_zero.1 (Nat.le_zero.1 h)
    subst this
    rfl
  | succ n ih =>
    intro s h
    cases s with
    | nil => rfl
    | cons c t =>
      rw [countLoop]
      have ht : t.length ≤ n := by simpa using h
      split
      · next hsw =>
        cases t with
        | nil => simp [startsWith] at hsw
        | cons d t2 =>
          have hc : c = 37 ∧ d = 115 := by simpa [startsWith] using hsw
          obtain ⟨rfl, rfl⟩ := hc
          have h2 : t2.length ≤ n := by simp at ht; omega
          have : List.drop ([37, 115] : Bytes).length (37 :: 115 :: t2) = t2 := rfl
          rw [this, ih t2 h2]
          simp [occurrences, List.countP_cons, startsWith]
          omega
      · next hsw =>
        rw [ih t ht]
        simp [occurrences, List.countP_cons, hsw]

/-- The count `strings.Count` gives for `%s` is the number of places at which
`%s` occurs. -/
theorem Count_occurrences (s : Bytes) : Count s (str "%s") = occurrences s (str "%s") := by
  have h : str "%s" = [37, 115] := by decide
  rw [h]
  simp only [Count, List.length_cons, List.length_nil]
  exact countLoop_occurrences s.length s (Nat.le_refl _)

theorem plusLoop_fuel (step : MState → List MState) (n : Nat) :
    ∀ (m : Nat) (st : MState), st.rest.length < n → st.rest.length < m →
      plusLoop step n st = plusLoop step m st := by
  induction n with
  | zero => intro m st h; omega
  | succ n ih =>
    intro m st hn hm
    obtain ⟨k, rfl⟩ : ∃ k, m = k + 1 := ⟨m - 1, by omega⟩
    rw [plusLoop, plusLoop]
    congr 1
    funext st1
    split
    · rw [ih k st1 (by omega) (by omega)]
    · rfl

/-- The fuel `FindAllStringSubmatch` gives the loop of `allMatches` is
enough for `(\w+)=(\w+)`: more changes nothing. -/
theorem allMatchesLoop_fuel (n : Nat) :
    ∀ (m : Nat) (s : Bytes), s.length < n → s.length < m →
      allMatchesLoop usersRegex 2 n s = allMatchesLoop usersRegex 2 m s := by
  induction n with
  | zero => intro m s h; omega
  | succ n ih =>
    intro m s hn hm
    obtain ⟨k, rfl⟩ : ∃ k, m = k + 1 := ⟨m - 1, by omega⟩
    rw [allMatchesLoop, allMatchesLoop]
    cases hf : firstMatch usersRegex 2 s with
    | none => rfl
    | some r =>
      obtain ⟨mt, rest⟩ := r
      have := usersRegex_consumes s mt rest hf
      simp only
      rw [ih k rest (by omega) (by omega)]

/-! ## The credential map -/

theorem foldl_mapSet (realm : Bytes) (pairs : List (Bytes × Bytes)) (m0 : UsersMap) (u : Bytes) :
    (pairs.foldl (fun m up => mapSet m up.1 (GenerateAuthKey up.1 realm up.2)) m0) u
      = match (pairs.filter (fun up => up.1 = u)).getLast? with
        | some up => some (GenerateAuthKey u realm up.2)
        | none => m0 u := by
  induction pairs using List.reverseRecOn with
  | nil => rfl
  | append_singleton l a ih =>
    rw [List.foldl_append, List.filter_append]
    by_cases h : a.1 = u
    · simp [mapSet, h, List.filter_cons]
    · have h2 : ¬ u = a.1 := fun e => h e.symm
      simp [mapSet, h, h2, List.filter_cons, ih]

theorem buildUsersMap_pairs (realm : Bytes) (pairs : List (Bytes × Bytes)) (hne : pairs ≠ [])
    (hv : ∀ up ∈ pairs, IsWordString up.1 ∧ IsWordString up.2) (u : Bytes) :
    buildUsersMap realm (usersText pairs) u
      = match (pairs.filter (fun up => up.1 = u)).getLast? with
        | some up => some (GenerateAuthKey u realm up.2)
        | none => none := by
  unfold buildUsersMap
  rw [findAll_users pairs hne hv, List.foldl_map]
  exact foldl_mapSet realm pairs emptyMap u

/-- C1. For a `-users` text of the documented form `u1=p1,...,un=pn` with
non-empty words `ui`, `pi`, the credential map has exactly the usernames as
keys, and a username is mapped to `GenerateAuthKey` of itself, the realm and
the password of the last pair that names it. -/
theorem buildUsersMap_documented (realm : Bytes) (pairs : List (Bytes × Bytes))
    (hne : pairs ≠ []) (hv : ∀ up ∈ pairs, IsWordString up.1 ∧ IsWordString up.2) :
    (∀ u, (buildUsersMap realm (usersText pairs) u).isSome ↔ u ∈ pairs.map Prod.fst) ∧
    (∀ u p, ((pairs.filter (fun up => up.1 = u)).getLast?).map Prod.snd = some p →
      buildUsersMap realm (usersText pairs) u = some (GenerateAuthKey u realm p)) := by
  constructor
  · intro u
    rw [buildUsersMap_pairs realm pairs hne hv u]
    cases hf : (pairs.filter (fun up => up.1 = u)).getLast? with
    | none =>
      have hnil : pairs.filter (fun up => up.1 = u) = [] := by
        simpa [List.getLast?_eq_none_iff] using hf
      have hnot : u ∉ pairs.map Prod.fst := by
        intro hmem
        obtain ⟨up, hup, he⟩ := List.mem_map.1 hmem
        have : up ∈ pairs.filter (fun up => up.1 = u) := by
          simp [List.mem_filter, hup, he]
        rw [hnil] at this
        simp at this
      simp [hnot]
    | some up =>
      have hmem : up ∈ pairs.filter (fun up => up.1 = u) := List.mem_of_getLast?_eq_some hf
      have h2 : up ∈ pairs ∧ up.1 = u := by simpa [List.mem_filter] using hmem
      have : u ∈ pairs.map Prod.fst := List.mem_map.2 ⟨up, h2.1, h2.2⟩
      simp [this]
  · intro u p h
    rw [buildUsersMap_pairs realm pairs hne hv u]
    cases hf : (pairs.filter (fun up => up.1 = u)).getLast? with
    | none => simp [hf] at h
    | some up =>
      simp [hf] at h
      simp [h]

theorem buildUsersMap_documented_witness :
    usersText [(str "alice", str "pw1")] = str "alice=pw1" ∧
    buildUsersMap (str "example.org") (str "alice=pw1") (str "alice")
      = some (GenerateAuthKey (str "alice") (str "example.org") (str "pw1")) ∧
    (buildUsersMap (str "example.org") (str "alice=pw1") (str "bob")).isSome = false := by
  have ht : usersText [(str "alice", str "pw1")] = str "alice=pw1" := by decide
  have hv : ∀ up ∈ [(str "alice", str "pw1")], IsWordString up.1 ∧ IsWordString up.2 := by
    intro up hup
    simp at hup
    subst hup
    exact ⟨⟨by decide, by decide⟩, ⟨by decide, by decide⟩⟩
  have h := buildUsersMap_documented (str "example.org") [(str "alice", str "pw1")]
    (by simp) hv
  rw [ht] at h
  refine ⟨ht, h.2 _ _ (by decide), ?_⟩
  have hb := (h.1 (str "bob")).not
  rw [Bool.not_eq_true] at hb
  exact hb.2 (by decide)

set_option maxRecDepth 100000 in
theorem defaultKey_ne :
    buildUsersMap (str "pion.ly") defaultUsers (str "musicplayer")
      ≠ some (GenerateAuthKey (str "musicplayer") (str "pion.ly")
          (str "z!ErcBpHfgV%QA5Bz*a6")) := by
  decide

/-- C2 (the code at the default `-users`). For every realm the credential map
built from the default `musicplayer=z!ErcBpHfgV%QA5Bz*a6` has the one entry
`musicplayer`, and its key is derived from the password `z`, the word
characters in front of the `!`; for the realm `pion.ly` that key is not the key of the
whole password text. -/
theorem buildUsersMap_default (realm : Bytes) :
    (∀ u, buildUsersMap realm defaultUsers u
      = if u = str "musicplayer" then
          some (GenerateAuthKey (str "musicplayer") realm (str "z"))
        else none) ∧
    buildUsersMap (str "pion.ly") defaultUsers (str "musicplayer")
      ≠ some (GenerateAuthKey (str "musicplayer") (str "pion.ly")
          (str "z!ErcBpHfgV%QA5Bz*a6")) := by
  have hfind : FindAllStringSubmatch usersRegex 2 defaultUsers
      = [[str "musicplayer=z", str "musicplayer", str "z"]] := by decide
  constructor
  · intro u
    unfold buildUsersMap
    rw [hfind]
    simp [mapSet, emptyMap]
  · exact defaultKey_ne

/-! ## The AuthHandler -/

/-- C3. The AuthHandler returns `(key, true)` with the key stored for the
username when the username is a key of the credential map, `(nil, false)`
when it is not, and leaves the map as it was; the callback in the server
configuration is this handler over the map built from `-users`. -/
theorem AuthHandler_lookup (usersMap : UsersMap) (username realm srcAddr : Bytes) :
    (∀ key, usersMap username = some key →
      (AuthHandler username realm srcAddr usersMap).1 = (some key, true)) ∧
    (usersMap username = none →
      (AuthHandler username realm srcAddr usersMap).1 = (none, false)) ∧
    (AuthHandler username realm srcAddr usersMap).2 = usersMap ∧
    (∀ (w : World) (v : FlagValues) (udp tcp : Socket),
      (serverConfig w v udp tcp).AuthHandler username realm srcAddr
        = (AuthHandler username realm srcAddr (buildUsersMap v.realm v.users)).1) := by
  refine ⟨?_, ?_, ?_, ?_⟩
  · intro key h
    simp [AuthHandler, h]
  · intro h
    simp [AuthHandler, h]
  · unfold AuthHandler
    cases usersMap username <;> rfl
  · intro w v udp tcp
    rfl

theorem AuthHandler_lookup_witness :
    (AuthHandler (str "alice") (str "example.org") (str "198.51.100.2:4000")
      (mapSet emptyMap (str "alice") [1, 2, 3])).1 = (some [1, 2, 3], true) ∧
    (AuthHandler (str "bob") (str "example.org") (str "198.51.100.2:4000")
      (mapSet emptyMap (str "alice") [1, 2, 3])).1 = (none, false) := by
  have ha := AuthHandler_lookup (mapSet emptyMap (str "alice") [1, 2, 3])
    (str "alice") (str "example.org") (str "198.51.100.2:4000")
  have hb := AuthHandler_lookup (mapSet emptyMap (str "alice") [1, 2, 3])
    (str "bob") (str "example.org") (str "198.51.100.2:4000")
  exact ⟨ha.1 [1, 2, 3] (by decide), hb.2.1 (by decide)⟩

/-! ## getPort and getPublicIP -/

theorem Atoi_3478 : Atoi (str "3478") = .ok 3478 := by decide

/-- C4. `getPort` returns 3478 when `PORT` is unset or empty, returns the
integer `strconv.Atoi` reads when `PORT` is a non-empty text it accepts, and
panics exactly when `PORT` is non-empty and `strconv.Atoi` rejects it. -/
theorem getPort_spec (environ : Bytes → Option Bytes) :
    ((environ (str "PORT") = none ∨ environ (str "PORT") = some []) →
      getPort environ = .ok 3478) ∧
    (∀ s n, environ (str "PORT") = some s → s ≠ [] → Atoi s = .ok n →
      getPort environ = .ok n) ∧
    (getPort environ = .error (.panicf (str "Failed to get heroku Port")) ↔
      ∃ s e, environ (str "PORT") = some s ∧ s ≠ [] ∧ Atoi s = .error e) := by
  refine ⟨?_, ?_, ?_⟩
  · intro h
    rcases h with h | h <;> simp [getPort, Getenv, h, Atoi_3478]
  · intro s n hs hne ha
    simp [getPort, Getenv, hs, hne, ha]
  · constructor
    · intro h
      cases hs : environ (str "PORT") with
      | none => simp [getPort, Getenv, hs, Atoi_3478] at h
      | some s =>
        by_cases hne : s = []
        · subst hne
          simp [getPort, Getenv, hs, Atoi_3478] at h
        · cases ha : Atoi s with
          | error e => exact ⟨s, e, rfl, hne, ha⟩
          | ok n => simp [getPort, Getenv, hs, hne, ha] at h
    · rintro ⟨s, e, hs, hne, ha⟩
      simp [getPort, Getenv, hs, hne, ha]

theorem getPort_spec_witness :
    getPort (fun _ => none) = .ok 3478 ∧
    getPort (fun _ => some (str "8080")) = .ok 8080 ∧
    getPort (fun _ => some (str "80a"))
      = .error (.panicf (str "Failed to get heroku Port")) :=
  ⟨(getPort_spec (fun _ => none)).1 (Or.inl rfl),
   (getPort_spec (fun _ => some (str "8080"))).2.1 (str "8080") 8080 rfl (by decide)
     (by decide),
   (getPort_spec (fun _ => some (str "80a"))).2.2.2
     ⟨str "80a", .ErrSyntax, rfl, by decide, by decide⟩⟩

/-- C5 as stated fails: the body `10.0.0.%s` is read without error and
`getPublicIP` returns `10.0.0.%!s(MISSING)`, not the body. -/
theorem getPublicIP_not_raw :
    getPublicIP (fun _ => .body (str "10.0.0.%s")) = .ok (str "10.0.0.%!s(MISSING)") ∧
    getPublicIP (fun _ => .body (str "10.0.0.%s")) ≠ .ok (str "10.0.0.%s") := by
  constructor <;> decide

/-- C5, amended. For every body that is read without error and does not hold
`%s` exactly once, `getPublicIP` returns the body, unmodified. -/
theorem getPublicIP_raw (httpGet : Bytes → HttpResult) (body : Bytes)
    (hbody : httpGet ipifyURL = .body body) (hcount : Count body (str "%s") ≠ 1) :
    getPublicIP httpGet = .ok body := by
  simp [getPublicIP, hbody, hcount]

theorem getPublicIP_raw_witness :
    getPublicIP (fun _ => .body (str "203.0.113.7")) = .ok (str "203.0.113.7") :=
  getPublicIP_raw (fun _ => .body (str "203.0.113.7")) (str "203.0.113.7") rfl (by decide)

/-- C8. `getPublicIP` returns the body when the count of `%s` in it is not 1,
and `fmt.Sprintf(body)` with no arguments when the count is 1, the count
being the number of places at which `%s` occurs; the body `a%sb` gives
`a%!s(MISSING)b` and not `a%sb`. -/
theorem getPublicIP_template (httpGet : Bytes → HttpResult) (body : Bytes)
    (hbody : httpGet ipifyURL = .body body) :
    (Count body (str "%s") ≠ 1 → getPublicIP httpGet = .ok body) ∧
    (Count body (str "%s") = 1 → getPublicIP httpGet = .ok (Sprintf body)) ∧
    Count body (str "%s") = occurrences body (str "%s") ∧
    Sprintf (str "a%sb") = str "a%!s(MISSING)b" ∧
    getPublicIP (fun _ => .body (str "a%sb")) = .ok (str "a%!s(MISSING)b") ∧
    str "a%!s(MISSING)b" ≠ str "a%sb" := by
  refine ⟨?_, ?_, Count_occurrences body, by decide, by decide, by decide⟩
  · intro h
    simp [getPublicIP, hbody, h]
  · intro h
    simp [getPublicIP, hbody, h]

theorem getPublicIP_template_witness :
    Count (str "a%sb") (str "%s") = 1 ∧
    getPublicIP (fun _ => .body (str "a%sb")) = .ok (Sprintf (str "a%sb")) ∧
    Count (str "%s and %s") (str "%s") = 2 ∧
    getPublicIP (fun _ => .body (str "%s and %s")) = .ok (str "%s and %s") :=
  ⟨by decide,
   (getPublicIP_template (fun _ => .body (str "a%sb")) (str "a%sb") rfl).2.1 (by decide),
   by decide,
   (getPublicIP_template (fun _ => .body (str "%s and %s")) (str "%s and %s") rfl).1
     (by decide)⟩

/-! ## main -/

theorem serve_no_listener_of_fatal (w : World) (v : FlagValues)
    (h : v.publicIP = [] ∨ v.users = []) :
    (serve w v).1 = [] := by
  unfold serve
  rcases h with h | h
  · simp [h]
  · by_cases hp : v.publicIP.length = 0 <;> simp [hp, h]

theorem Sprintf_publicIP :
    Sprintf (str "'public-ip' is required") = str "'public-ip' is required" := by decide

theorem Sprintf_users :
    Sprintf (str "'users' is required") = str "'users' is required" := by decide

/-- C6. After flag parsing, main ends with the fatal message
`'public-ip' is required` when the public-ip value is empty, whatever the
users value, and with `'users' is required` when public-ip is non-empty and
users is empty; in both cases no UDP or TCP listener has been created. When
both values are non-empty main does not end with a fatal message. -/
theorem main_required_flags (w : World) (a : Args) (defaultIP : Bytes) (defaultPort : Int)
    (hip : getPublicIP w.httpGet = .ok defaultIP) (hport : getPort w.environ = .ok defaultPort)
    (hargs : w.args = some a) :
    ((flagValues a defaultIP defaultPort).publicIP = [] →
      (main w).2 = .fatal (str "'public-ip' is required") ∧
      (main w).1.all (fun e => !e.isListener) = true) ∧
    ((flagValues a defaultIP defaultPort).publicIP ≠ [] →
      (flagValues a defaultIP defaultPort).users = [] →
      (main w).2 = .fatal (str "'users' is required") ∧
      (main w).1.all (fun e => !e.isListener) = true) ∧
    ((flagValues a defaultIP defaultPort).publicIP ≠ [] →
      (flagValues a defaultIP defaultPort).users ≠ [] →
      ∀ msg, (main w).2 ≠ .fatal msg) := by
  have hmain : main w = ([.httpGet ipifyURL, .getenv (str "PORT"), .flagParse]
      ++ (serve w (flagValues a defaultIP defaultPort)).1,
      (serve w (flagValues a defaultIP defaultPort)).2) := by
    simp [main, hip, hport, hargs]
  refine ⟨?_, ?_, ?_⟩
  · intro h
    rw [hmain, serve_no_listener_of_fatal w _ (Or.inl h)]
    refine ⟨?_, by simp [Event.isListener]⟩
    simp [serve, h, Sprintf_publicIP]
  · intro h1 h2
    rw [hmain, serve_no_listener_of_fatal w _ (Or.inr h2)]
    refine ⟨?_, by simp [Event.isListener]⟩
    simp [serve, h1, h2, Sprintf_users]
  · intro h1 h2 msg
    rw [hmain]
    simp only [serve, List.length_eq_zero, h1, h2, if_false]
    split
    · simp
    · split
      · simp
      · split
        · simp
        · split <;> simp

theorem main_required_flags_witness :
    (main (exampleWorld (.body (str "203.0.113.7")) none
      ⟨some [], none, some [], none⟩)).2 = .fatal (str "'public-ip' is required") ∧
    (main (exampleWorld (.body (str "203.0.113.7")) none
      ⟨none, none, some [], none⟩)).2 = .fatal (str "'users' is required") ∧
    (main (exampleWorld (.body (str "203.0.113.7")) none
      ⟨none, none, none, none⟩)).2 ≠ .fatal (str "'users' is required") :=
  ⟨((main_required_flags (exampleWorld (.body (str "203.0.113.7")) none
      ⟨some [], none, some [], none⟩) ⟨some [], none, some [], none⟩ (str "203.0.113.7") 3478
      (by decide) (by decide) rfl).1 (by decide)).1,
   ((main_required_flags (exampleWorld (.body (str "203.0.113.7")) none
      ⟨none, none, some [], none⟩) ⟨none, none, some [], none⟩ (str "203.0.113.7") 3478
      (by decide) (by decide) rfl).2.1 (by decide) (by decide)).1,
   (main_required_flags (exampleWorld (.body (str "203.0.113.7")) none
      ⟨none, none, none, none⟩) ⟨none, none, none, none⟩ (str "203.0.113.7") 3478
      (by decide) (by decide) rfl).2.2 (by decide) (by decide) _⟩

/-- C7. When the flags pass validation and both sockets can be bound, main
hands `turn.NewServer` one configuration: it has exactly one UDP packet
endpoint and exactly one TCP listener, both bound to `0.0.0.0:` followed by
the decimal port, each with a static relay address generator whose
`RelayAddress` is `net.ParseIP` of the public-ip value and whose `Address`
is `0.0.0.0`. -/
theorem main_server_config (w : World) (a : Args) (defaultIP : Bytes) (defaultPort : Int)
    (hip : getPublicIP w.httpGet = .ok defaultIP) (hport : getPort w.environ = .ok defaultPort)
    (hargs : w.args = some a)
    (hpub : (flagValues a defaultIP defaultPort).publicIP ≠ [])
    (husers : (flagValues a defaultIP defaultPort).users ≠ [])
    (hudp : w.listenPacket (str "udp4")
      (str "0.0.0.0:" ++ Itoa (flagValues a defaultIP defaultPort).port) = true)
    (htcp : w.listen (str "tcp4")
      (str "0.0.0.0:" ++ Itoa (flagValues a defaultIP defaultPort).port) = true) :
    ∃ cfg, newServerConfigs (main w).1 = [cfg] ∧
      cfg.PacketConnConfigs =
        [⟨⟨str "udp4", str "0.0.0.0:" ++ Itoa (flagValues a defaultIP defaultPort).port⟩,
          ⟨w.parseIP (flagValues a defaultIP defaultPort).publicIP, str "0.0.0.0"⟩⟩] ∧
      cfg.ListenerConfigs =
        [⟨⟨str "tcp4", str "0.0.0.0:" ++ Itoa (flagValues a defaultIP defaultPort).port⟩,
          ⟨w.parseIP (flagValues a defaultIP defaultPort).publicIP, str "0.0.0.0"⟩⟩] ∧
      (main w).1.filter Event.isListener =
        [.listenPacket (str "udp4")
            (str "0.0.0.0:" ++ Itoa (flagValues a defaultIP defaultPort).port),
          .listen (str "tcp4")
            (str "0.0.0.0:" ++ Itoa (flagValues a defaultIP defaultPort).port)] := by
  have hmain : main w = ([.httpGet ipifyURL, .getenv (str "PORT"), .flagParse]
      ++ (serve w (flagValues a defaultIP defaultPort)).1,
      (serve w (flagValues a defaultIP defaultPort)).2) := by
    simp [main, hip, hport, hargs]
  refine ⟨serverConfig w (flagValues a defaultIP defaultPort)
    ⟨str "udp4", listenAddress (flagValues a defaultIP defaultPort).port⟩
    ⟨str "tcp4", listenAddress (flagValues a defaultIP defaultPort).port⟩, ?_, rfl, rfl, ?_⟩
  · rw [hmain]
    simp only [serve, List.length_eq_zero, hpub, husers, if_false, listenAddress, hudp, htcp,
      not_true_eq_false]
    split
    · simp [newServerConfigs]
    · split <;> simp [newServerConfigs]
  · rw [hmain]
    simp only [serve, List.length_eq_zero, hpub, husers, if_false, listenAddress, hudp, htcp,
      not_true_eq_false]
    split
    · simp [Event.isListener]
    · split <;> simp [Event.isListener]

theorem main_server_config_witness :
    ∃ cfg, newServerConfigs (main (exampleWorld (.body (str "203.0.113.7")) none
        ⟨none, none, none, none⟩)).1 = [cfg] ∧
      cfg.PacketConnConfigs =
        [⟨⟨str "udp4", str "0.0.0.0:3478"⟩, ⟨some (str "203.0.113.7"), str "0.0.0.0"⟩⟩] ∧
      cfg.ListenerConfigs =
        [⟨⟨str "tcp4", str "0.0.0.0:3478"⟩, ⟨some (str "203.0.113.7"), str "0.0.0.0"⟩⟩] := by
  obtain ⟨cfg, h1, h2, h3, _⟩ := main_server_config
    (exampleWorld (.body (str "203.0.113.7")) none ⟨none, none, none, none⟩)
    ⟨none, none, none, none⟩ (str "203.0.113.7") 3478 (by decide) (by decide) rfl
    (by decide) (by decide) rfl rfl
  have haddr : str "0.0.0.0:" ++ Itoa (flagValues ⟨none, none, none, none⟩
      (str "203.0.113.7") 3478).port = str "0.0.0.0:3478" := by decide
  rw [haddr] at h2 h3
  exact ⟨cfg, h1, h2, h3⟩

/-- C9. The defaults of `-public-ip` and `-port` are computed before the
flags are parsed: whatever the command line, main panics without having
called `flag.Parse` when the public-IP lookup or the reading of its body
fails, and when `PORT` is non-empty and `strconv.Atoi` rejects it. -/
theorem main_defaults_first (w : World) (args : Option Args) :
    (w.httpGet ipifyURL = .getFailed →
      main { w with args := args }
        = ([.httpGet ipifyURL], .panicf (str "Failed to get public IP"))) ∧
    (w.httpGet ipifyURL = .readFailed →
      main { w with args := args }
        = ([.httpGet ipifyURL], .panicf (str "Failed to parse public IP from body"))) ∧
    (∀ s e, w.environ (str "PORT") = some s → s ≠ [] → Atoi s = .error e →
      (∃ format, (main { w with args := args }).2 = .panicf format) ∧
      (main { w with args := args }).1.all (fun ev => !ev.isFlagParse) = true ∧
      (∀ body, w.httpGet ipifyURL = .body body →
        main { w with args := args }
          = ([.httpGet ipifyURL, .getenv (str "PORT")],
             .panicf (str "Failed to get heroku Port")))) := by
  refine ⟨?_, ?_, ?_⟩
  · intro h
    simp [main, getPublicIP, h]
  · intro h
    simp [main, getPublicIP, h]
  · intro s e hs hne ha
    have hp : getPort w.environ = .error (.panicf (str "Failed to get heroku Port")) := by
      simp [getPort, Getenv, hs, hne, ha]
    cases hg : getPublicIP w.httpGet with
    | error p =>
      have hpan : ∃ format, p = .panicf format := by
        unfold getPublicIP at hg
        split at hg
        · exact ⟨_, by injection hg with h; exact h.symm⟩
        · exact ⟨_, by injection hg with h; exact h.symm⟩
        · simp at hg
      obtain ⟨f, rfl⟩ := hpan
      refine ⟨by simp [main, hg], by simp [main, hg, Event.isFlagParse], ?_⟩
      intro body hb
      simp [getPublicIP, hb] at hg
    | ok ip =>
      simp [main, hg, hp, Event.isFlagParse]

theorem main_defaults_first_witness :
    main (exampleWorld .getFailed none ⟨some (str "198.51.100.1"), some 3478, none, none⟩)
      = ([.httpGet ipifyURL], .panicf (str "Failed to get public IP")) ∧
    main (exampleWorld (.body (str "203.0.113.7")) (some (str "http"))
      ⟨some (str "198.51.100.1"), some 3478, none, none⟩)
      = ([.httpGet ipifyURL, .getenv (str "PORT")],
         .panicf (str "Failed to get heroku Port")) := by
  have h1 := (main_defaults_first
    (exampleWorld .getFailed none ⟨none, none, none, none⟩)
    (some ⟨some (str "198.51.100.1"), some 3478, none, none⟩)).1 rfl
  have h2 := ((main_defaults_first
    (exampleWorld (.body (str "203.0.113.7")) (some (str "http")) ⟨none, none, none, none⟩)
    (some ⟨some (str "198.51.100.1"), some 3478, none, none⟩)).2.2
      (str "http") .ErrSyntax (by decide) (by decide) (by decide)).2.2
      (str "203.0.113.7") rfl
  exact ⟨h1, h2⟩

end MusicPlayerTurn
